import Mathlib

/-!
Shallow embedding of the CASToR datafile manipulation core of
pet-imaging-tools: the header codec, the flag-driven record schema, the
record codec, the streaming transformer and the update orchestrator from
pet_imaging_tools/castor_datafile (files transformation.py, truncate.py and
add_normalization_factors.py), together with theorems settling the frozen
claims about them.

Modelling conventions:
* a header is a list of lines; a line is a list of characters and contains
  no newline character (headers are split on the line terminator before any
  operation, mirroring the MULTILINE regexes of the source, whose patterns
  are anchored per line);
* binary data is a list of byte values (each a natural number below 256);
* numpy scalars are modelled by their mathematical content: fields of
  numpy type i4 by the signed integer the bytes denote in two-complement
  little-endian form, fields of numpy type f4 by the 32-bit word holding
  the IEEE bit pattern (numpy reads and writes such fields without altering
  the bit pattern, so the word is exactly the information that flows
  through the pipeline);
* the filesystem is abstracted away: file contents are passed and returned
  directly, and path resolution is dropped.
-/

namespace CastorDatafile

/-- The characters matched by the regex class backslash-s of the source
patterns, except the newline (lines are already split). -/
def isSpace (c : Char) : Bool :=
  c = ' ' || c = '\t' || c = '\r' || c = '\x0b' || c = '\x0c'

/-- A header line, without its terminating newline. -/
abbrev Line := List Char

/-- Header file content, as its list of lines. -/
abbrev Cdh := List Line

/-- The value captured when a line matches the pattern of
read_cdh_field, anchored on one line: the field name, optional whitespace,
a colon, optional whitespace, one nonempty whitespace-free token, optional
trailing whitespace, end of line.  Returns none when the line does not
match. -/
def lineFieldValue (field line : Line) : Option Line :=
  if field.isPrefixOf line then
    match (line.drop field.length).dropWhile isSpace with
    | ':' :: r2 =>
      let r3 := r2.dropWhile isSpace
      let tok := r3.takeWhile fun c => !(isSpace c)
      let rest := (r3.drop tok.length).dropWhile isSpace
      if tok ≠ [] && rest.isEmpty then some tok else none
    | _ => none
  else none

/-- Errors of the embedded operations, covering the ValueError, KeyError,
TypeError and sys.exit outcomes of the source. -/
inductive CdhErr where
  /-- read_cdh_field found the field more than once (ValueError). -/
  | duplicateField (field : Line) (count : Nat)
  /-- is_list_mode found no Data mode field (ValueError). -/
  | missingDataMode
  /-- int() failed on a field value (ValueError). -/
  | malformedInt (field : Line)
  /-- add_normalization_factors: file already contains normalization data
  (ValueError). -/
  | alreadyCorrected
  /-- write_row: the row is missing a mandatory field (KeyError). -/
  | keyErr
  /-- np.frombuffer: buffer size is not a multiple of the item size
  (ValueError). -/
  | frombufferSize
  /-- get_cdf_path with a missing Data filename field (TypeError on
  os.path.join). -/
  | noDataFilename
  /-- sys.exit: only list-mode data is supported. -/
  | notListMode
  /-- sys.exit: only one line per event is supported. -/
  | maxLinesUnsupported
  deriving DecidableEq, Repr

instance {ε α : Type} [DecidableEq ε] [DecidableEq α] :
    DecidableEq (Except ε α) := fun x y =>
  match x, y with
  | .ok a, .ok b => decidable_of_iff (a = b) (by simp)
  | .error a, .error b => decidable_of_iff (a = b) (by simp)
  | .ok _, .error _ => .isFalse (by simp)
  | .error _, .ok _ => .isFalse (by simp)

/-- read_cdh_field: value of the field when it occurs on exactly one line,
none when it occurs on no line, ValueError when it occurs on several. -/
def read_cdh_field (cdh : Cdh) (field : Line) : Except CdhErr (Option Line) :=
  match cdh.filterMap (lineFieldValue field) with
  | [] => .ok none
  | [v] => .ok (some v)
  | _ :: _ :: vs => .error (.duplicateField field (vs.length + 2))

/-- Whether a line matches the replacement pattern of replace_cdh_field:
the field name at the start of the line followed by at least one more
character. -/
def replaceMatches (field line : Line) : Bool :=
  field.isPrefixOf line && field.length < line.length

/-- replace_cdh_field: every line matching the replacement pattern is
rewritten to the field name, a colon, a space and the new value; all other
lines are kept. -/
def replace_cdh_field (cdh : Cdh) (field newValue : Line) : Cdh :=
  cdh.map fun line =>
    if replaceMatches field line then field ++ ':' :: ' ' :: newValue else line

def dataFilenameKey : Line := "Data filename".data

def dataModeKey : Line := "Data mode".data

def maxLinesKey : Line := "Maximum number of lines per event".data

def listModeTok : Line := "list-mode".data

/-- is_list_mode: reads the Data mode field; a missing field is a
ValueError; otherwise compares the value with the list-mode token. -/
def is_list_mode (cdh : Cdh) : Except CdhErr Bool :=
  match read_cdh_field cdh dataModeKey with
  | .error e => .error e
  | .ok none => .error .missingDataMode
  | .ok (some v) => .ok (v = listModeTok)

/-- All characters are decimal digits and there is at least one. -/
def parseNatDigits (s : List Char) : Option Nat :=
  if s.isEmpty then none
  else
    s.foldl
      (fun acc c =>
        match acc with
        | some a => if c.isDigit then some (a * 10 + (c.toNat - 48)) else none
        | none => none)
      (some 0)

/-- Model of Python int() on a whitespace-free token: an optional sign
followed by one or more decimal digits (digit grouping by underscore is not
modelled). -/
def pyInt : List Char → Option Int
  | '+' :: rest => (parseNatDigits rest).map Int.ofNat
  | '-' :: rest => (parseNatDigits rest).map fun n => -(Int.ofNat n)
  | s => (parseNatDigits s).map Int.ofNat

/-- check_flag: a missing flag field is false; otherwise the value must
parse as an integer (else ValueError) and any nonzero integer is true. -/
def check_flag (cdh : Cdh) (flag : Line) : Except CdhErr Bool :=
  match read_cdh_field cdh flag with
  | .error e => .error e
  | .ok none => .ok false
  | .ok (some v) =>
    match pyInt v with
    | none => .error (.malformedInt flag)
    | some n => .ok (n != 0)

/-- max_nb_of_lines_per_event: a missing field defaults to one; otherwise
the value must parse as an integer. -/
def max_nb_of_lines_per_event (cdh : Cdh) : Except CdhErr Int :=
  match read_cdh_field cdh maxLinesKey with
  | .error e => .error e
  | .ok none => .ok 1
  | .ok (some v) =>
    match pyInt v with
    | none => .error (.malformedInt maxLinesKey)
    | some n => .ok n

def attenuationFlagKey : Line := "Attenuation correction flag".data

def scatterFlagKey : Line := "Scatter correction flag".data

def randomFlagKey : Line := "Random correction flag".data

def normalizationFlagKey : Line := "Normalization correction flag".data

def tofFlagKey : Line := "TOF information flag".data

/-- The boolean value of each of the five optional correction flags, in the
fixed declaration order of the FLAGS table of the source. -/
structure Flags where
  attenuation : Bool
  scatter : Bool
  random : Bool
  normalization : Bool
  tof : Bool
  deriving DecidableEq, Repr

/-- get_flags: reads each of the five flags with check_flag, in the FLAGS
table order; the first failing read aborts. -/
def get_flags (cdh : Cdh) : Except CdhErr Flags := do
  let a ← check_flag cdh attenuationFlagKey
  let s ← check_flag cdh scatterFlagKey
  let r ← check_flag cdh randomFlagKey
  let n ← check_flag cdh normalizationFlagKey
  let t ← check_flag cdh tofFlagKey
  return ⟨a, s, r, n, t⟩

/-- The binary record fields (CASToRCDFField). -/
inductive CField where
  | t
  | a
  | s
  | r
  | n
  | tof
  | c1
  | c2
  deriving DecidableEq, Repr

/-- The two scalar layouts of the source: i4 is the numpy type string
of the constant named UINT32_T, which is the little-endian SIGNED 32-bit
integer type; f4 is the little-endian 32-bit IEEE float type FLTNBDATA. -/
inductive CType where
  | i4
  | f4
  deriving DecidableEq, Repr

/-- get_dtype: the ordered field layout derived from the flags: the
timestamp, then one float field per enabled flag in the FLAGS table order,
then the two crystal identifiers. -/
def get_dtype (fl : Flags) : List (CField × CType) :=
  [(CField.t, CType.i4)]
    ++ (if fl.attenuation then [(CField.a, CType.f4)] else [])
    ++ (if fl.scatter then [(CField.s, CType.f4)] else [])
    ++ (if fl.random then [(CField.r, CType.f4)] else [])
    ++ (if fl.normalization then [(CField.n, CType.f4)] else [])
    ++ (if fl.tof then [(CField.tof, CType.f4)] else [])
    ++ [(CField.c1, CType.i4), (CField.c2, CType.i4)]

/-- The byte width of one record under a flag set: every field of the
dtype occupies four bytes. -/
def rowWidth (fl : Flags) : Nat := 4 * (get_dtype fl).length

/-- One decoded record, as the dict produced by itertuples and consumed by
write_row: the mandatory i4 fields hold signed 32-bit integer values, the
optional f4 fields hold 32-bit IEEE bit patterns, and a field absent from
the dict is none. -/
structure Row where
  t : Option Int
  a : Option Nat
  s : Option Nat
  r : Option Nat
  n : Option Nat
  tof : Option Nat
  c1 : Option Int
  c2 : Option Int
  deriving DecidableEq, Repr

/-- Whether the row dict defines the given field (membership in
row.keys()). -/
def Row.hasField (row : Row) : CField → Bool
  | .t => row.t.isSome
  | .a => row.a.isSome
  | .s => row.s.isSome
  | .r => row.r.isSome
  | .n => row.n.isSome
  | .tof => row.tof.isSome
  | .c1 => row.c1.isSome
  | .c2 => row.c2.isSome

/-- The little-endian four-byte encoding of a 32-bit word. -/
def le4 (w : Nat) : List Nat :=
  [w % 256, w / 256 % 256, w / 256 / 256 % 256, w / 256 / 256 / 256 % 256]

/-- The 32-bit word denoted by the first four bytes of a byte stream. -/
def word4 : List Nat → Nat
  | b0 :: b1 :: b2 :: b3 :: _ => b0 + 256 * (b1 + 256 * (b2 + 256 * b3))
  | _ => 0

/-- The signed value an i4 field gives to a 32-bit word (two-complement). -/
def toSigned32 (w : Nat) : Int :=
  if w < 2 ^ 31 then (w : Int) else (w : Int) - 2 ^ 32

/-- The 32-bit word whose two-complement reading is the given signed
value. -/
def toWord32 (v : Int) : Nat := (v % (2 ^ 32 : Int)).toNat

/-- The bytes write_row emits for one optional correction field: nothing
when the field is absent from the row, the four little-endian bytes of its
bit pattern when present. -/
def write_opt : Option Nat → List Nat
  | none => []
  | some w => le4 (w % 2 ^ 32)

/-- write_row: the bytes appended to the output file for one row, and the
error if one is raised.  The timestamp is written first, then each optional
correction field in the FLAGS table order when and only when the row
defines it, then the two crystal identifiers; a missing mandatory field
raises a KeyError at the point it is reached, after the preceding fields
have already been written. -/
def write_row (row : Row) : List Nat × Option CdhErr :=
  match row.t with
  | none => ([], some .keyErr)
  | some tv =>
    let pre := le4 (toWord32 tv) ++ write_opt row.a ++ write_opt row.s
      ++ write_opt row.r ++ write_opt row.n ++ write_opt row.tof
    match row.c1 with
    | none => (pre, some .keyErr)
    | some v1 =>
      match row.c2 with
      | none => (pre ++ le4 (toWord32 v1), some .keyErr)
      | some v2 => (pre ++ le4 (toWord32 v1) ++ le4 (toWord32 v2), none)

/-- Decoding one optional field: when its flag is enabled, consume four
bytes and store their word; otherwise the field is absent. -/
def readOpt (flag : Bool) (bs : List Nat) : Option Nat × List Nat :=
  if flag then (some (word4 bs), bs.drop 4) else (none, bs)

/-- Decoding one record from the head of a byte stream, under the layout
the flags induce: the fields are read in the get_dtype order, i4 fields as
signed integers and f4 fields as bit patterns; returns the record and the
remaining bytes. -/
def decodeRow (fl : Flags) (bs : List Nat) : Row × List Nat :=
  let bs1 := bs.drop 4
  let bs2 := (readOpt fl.attenuation bs1).2
  let bs3 := (readOpt fl.scatter bs2).2
  let bs4 := (readOpt fl.random bs3).2
  let bs5 := (readOpt fl.normalization bs4).2
  let bs6 := (readOpt fl.tof bs5).2
  let bs7 := bs6.drop 4
  (⟨some (toSigned32 (word4 bs)),
    (readOpt fl.attenuation bs1).1,
    (readOpt fl.scatter bs2).1,
    (readOpt fl.random bs3).1,
    (readOpt fl.normalization bs4).1,
    (readOpt fl.tof bs5).1,
    some (toSigned32 (word4 bs6)),
    some (toSigned32 (word4 bs7))⟩, bs7.drop 4)

/-- Decoding a fixed number of consecutive records. -/
def decodeRows (fl : Flags) : Nat → List Nat → List Row
  | 0, _ => []
  | k + 1, bs =>
    (decodeRow fl bs).1 :: decodeRows fl k (decodeRow fl bs).2

/-- get_dd_from_cdf_file, content level: np.frombuffer fails unless the
byte length is an exact multiple of the record width, and otherwise yields
one record per width-sized slice, in order. -/
def get_dd_from_cdf_file (fl : Flags) (bs : List Nat) :
    Except CdhErr (List Row) :=
  if bs.length % rowWidth fl = 0 then
    .ok (decodeRows fl (bs.length / rowWidth fl) bs)
  else .error .frombufferSize

/-- The three possible outcomes of the row-transform callback: an updated
row to write, the null result that suppresses one row, or the
StopProcessingException that ends the loop. -/
inductive RowUpd where
  | keep (row : Row)
  | skip
  | stop

/-- write_new_cdf_file: iterate the decoded rows in stream order, invoking
the (possibly stateful, hence index-aware) row transform on each; a kept
row is encoded and appended, a null result is skipped, a stop signal ends
the loop keeping what was already written; a KeyError from write_row
propagates.  The second argument is the index of the first row of the
list. -/
def write_new_cdf_file (f : Nat → Row → RowUpd) :
    List Row → Nat → Except CdhErr (List Nat)
  | [], _ => .ok []
  | row :: rest, i =>
    match f i row with
    | .stop => .ok []
    | .skip => write_new_cdf_file f rest (i + 1)
    | .keep r =>
      match write_row r with
      | (bs, none) => (write_new_cdf_file f rest (i + 1)).map fun out => bs ++ out
      | (_, some e) => .error e

/-- write_new_cdh_file, content level: the data-filename field of the
header is replaced by the output binary file name, the caller header
transform is applied to the result, and the outcome is the new header
content (the header transform may raise). -/
def write_new_cdh_file (cdfFilename : Line) (cdh : Cdh)
    (update_cdh : Cdh → Except CdhErr Cdh) : Except CdhErr Cdh :=
  update_cdh (replace_cdh_field cdh dataFilenameKey cdfFilename)

/-- get_cdf_and_cdh_content_from_file, content level: validates that the
header is list-mode and single-line-per-event, derives the flags, reads
the data-filename field (get_cdf_path) and decodes the binary stream. -/
def get_cdf_and_cdh_content (cdh : Cdh) (cdfBytes : List Nat) :
    Except CdhErr (Flags × List Row) :=
  match is_list_mode cdh with
  | .error e => .error e
  | .ok lm =>
    if !lm then .error .notListMode
    else
      match max_nb_of_lines_per_event cdh with
      | .error e => .error e
      | .ok ml =>
        if ml > 1 then .error .maxLinesUnsupported
        else
          match get_flags cdh with
          | .error e => .error e
          | .ok fl =>
            match read_cdh_field cdh dataFilenameKey with
            | .error e => .error e
            | .ok none => .error .noDataFilename
            | .ok (some _) =>
              match get_dd_from_cdf_file fl cdfBytes with
              | .error e => .error e
              | .ok rows => .ok (fl, rows)

/-- The outcome of one update run: the content of each output file that
was completely written, and the error if one was raised.  (Files that an
error leaves partially written are not tracked.) -/
structure UpdateResult where
  outCdh : Option Cdh
  outCdf : Option (List Nat)
  err : Option CdhErr
  deriving DecidableEq, Repr

/-- update_castor_datafile, content level: validate and decode the input
pair, write the new header (with the data-filename field pointing at the
base name of the output binary file), then stream the rows through the row
transform into the new binary file.  An error at any step stops the run;
the outputs produced by the completed earlier steps remain. -/
def update_castor_datafile (cdh : Cdh) (cdfBytes : List Nat)
    (outCdfName : Line) (update_cdh : Cdh → Except CdhErr Cdh)
    (update_row : Nat → Row → RowUpd) : UpdateResult :=
  match get_cdf_and_cdh_content cdh cdfBytes with
  | .error e => ⟨none, none, some e⟩
  | .ok (_, rows) =>
    match write_new_cdh_file outCdfName cdh update_cdh with
    | .error e => ⟨none, none, some e⟩
    | .ok newCdh =>
      match write_new_cdf_file update_row rows 0 with
      | .error e => ⟨some newCdh, none, some e⟩
      | .ok outBytes => ⟨some newCdh, some outBytes, none⟩

/-- The header transform of add_normalization_factors: raises when the
normalization flag field reads as the literal token 1, and otherwise
appends a normalization-flag line at the end of the header (after the
last line, reusing a final empty line when the text ends with a line
terminator). -/
def nf_update_cdh (cdh : Cdh) : Except CdhErr Cdh :=
  match read_cdh_field cdh normalizationFlagKey with
  | .error e => .error e
  | .ok v =>
    if v = some ['1'] then .error .alreadyCorrected
    else
      .ok
        (if 2 ≤ cdh.length ∧ cdh.getLast? = some ([] : Line) then
          cdh.dropLast ++ [normalizationFlagKey ++ ':' :: ' ' :: ['1']]
        else cdh ++ [normalizationFlagKey ++ ':' :: ' ' :: ['1']])

/-- The row transform of truncate, reformulated on the call index: the
first number_of_events calls pass the row through, every later call raises
StopProcessingException. -/
def truncate_update_row (numberOfEvents : Nat) (i : Nat) (row : Row) :
    RowUpd :=
  if i + 1 > numberOfEvents then .stop else .keep row

def noFlags : Flags := ⟨false, false, false, false, false⟩

example : rowWidth noFlags = 12 := by decide

example : rowWidth ⟨true, false, false, true, false⟩ = 20 := by decide

example :
    write_row ⟨some 1, none, none, none, none, none, some 1, some 2⟩
    = ([1, 0, 0, 0, 1, 0, 0, 0, 2, 0, 0, 0], none) := by decide

example :
    decodeRow noFlags [1, 0, 0, 0, 1, 0, 0, 0, 2, 0, 0, 0]
    = (⟨some 1, none, none, none, none, none, some 1, some 2⟩, []) := by
  decide

example :
    (decodeRow noFlags [0, 0, 0, 128, 0, 0, 0, 0, 0, 0, 0, 0]).1.t
    = some (-2147483648) := by decide

example :
    get_dd_from_cdf_file ⟨true, false, false, false, false⟩
      [0, 0, 0, 0, 0, 0, 0, 0, 0, 0, 0, 0]
    = .error .frombufferSize := by decide

example : read_cdh_field ["Data mode: list-mode".data] dataModeKey
    = .ok (some "list-mode".data) := by decide

example : read_cdh_field ["Test:     abc     ".data] "Test".data
    = .ok (some "abc".data) := by decide

example : read_cdh_field ["A: 1".data, "A: 2".data] "A".data
    = .error (.duplicateField "A".data 2) := by decide

example : read_cdh_field ["Key: a b".data] "Key".data = .ok none := by decide

example : is_list_mode ["Data mode: histogram".data] = .ok false := by decide

example : check_flag ["F: -3".data] "F".data = .ok true := by decide

example : check_flag ["F: hello".data] "F".data
    = .error (.malformedInt "F".data) := by decide

example :
    replace_cdh_field ["Data filename: a.Cdf".data, "Isotope: unknown".data]
      dataFilenameKey "b.Cdf".data
    = ["Data filename: b.Cdf".data, "Isotope: unknown".data] := by decide

/-- Width in bytes of one optional field under its flag. -/
def optW (flag : Bool) : Nat := if flag then 4 else 0

/-- Well-formedness of one optional field of a row against its flag: the
field is present exactly when the flag is enabled, and its bit pattern fits
in 32 bits. -/
def optConf (flag : Bool) (o : Option Nat) : Bool :=
  match flag, o with
  | true, some w => decide (w < 2 ^ 32)
  | false, none => true
  | _, _ => false

/-- Well-formedness of one mandatory field of a row: present, with a value
in the signed 32-bit range. -/
def intConf : Option Int → Bool
  | some v => decide (-(2 ^ 31) ≤ v) && decide (v < 2 ^ 31)
  | none => false

/-- A row conforms to a flag set when its mandatory fields are present
with in-range values and each optional field is present exactly when its
flag is enabled: this is the shape of every row the decoder produces. -/
def Row.conforms (row : Row) (fl : Flags) : Bool :=
  intConf row.t && optConf fl.attenuation row.a && optConf fl.scatter row.s
    && optConf fl.random row.r && optConf fl.normalization row.n
    && optConf fl.tof row.tof && intConf row.c1 && intConf row.c2

def allCFields : List CField := [.t, .a, .s, .r, .n, .tof, .c1, .c2]

/-- The schema contains every field the record defines. -/
def schemaContains (row : Row) (dt : List (CField × CType)) : Bool :=
  allCFields.all fun fd => !(row.hasField fd) || (dt.map Prod.fst).contains fd

theorem length_filterMap_eq_countP {α β : Type} (f : α → Option β)
    (l : List α) :
    (l.filterMap f).length = l.countP fun a => (f a).isSome := by
  induction l with
  | nil => rfl
  | cons a l ih =>
    cases h : f a <;>
      simp [List.filterMap_cons, List.countP_cons, h, ih]

theorem word4_spec (bs : List Nat) (h4 : 4 ≤ bs.length)
    (hb : ∀ b ∈ bs, b < 256) :
    le4 (word4 bs) = bs.take 4 ∧ word4 bs < 2 ^ 32 := by
  rcases bs with _ | ⟨b0, bs⟩
  · simp at h4
  rcases bs with _ | ⟨b1, bs⟩
  · simp at h4
  rcases bs with _ | ⟨b2, bs⟩
  · simp at h4
  rcases bs with _ | ⟨b3, bs⟩
  · simp at h4
  have h0 : b0 < 256 := hb b0 (by simp)
  have h1 : b1 < 256 := hb b1 (by simp)
  have h2 : b2 < 256 := hb b2 (by simp)
  have h3 : b3 < 256 := hb b3 (by simp)
  have htake : (b0 :: b1 :: b2 :: b3 :: bs).take 4 = [b0, b1, b2, b3] := rfl
  refine ⟨?_, ?_⟩
  · rw [htake]
    simp only [word4, le4, List.cons.injEq, and_true]
    refine ⟨?_, ?_, ?_, ?_⟩ <;> omega
  · simp only [word4]
    omega

theorem toWord32_toSigned32 (w : Nat) (hw : w < 2 ^ 32) :
    toWord32 (toSigned32 w) = w := by
  unfold toWord32 toSigned32
  split <;> omega

theorem toSigned32_toWord32 (v : Int) (h1 : -(2 ^ 31) ≤ v) (h2 : v < 2 ^ 31) :
    toSigned32 (toWord32 v) = v := by
  unfold toWord32 toSigned32
  split <;> omega

theorem toWord32_lt (v : Int) : toWord32 v < 2 ^ 32 := by
  unfold toWord32
  omega

theorem word4_le4_append (w : Nat) (hw : w < 2 ^ 32) (rest : List Nat) :
    word4 (le4 w ++ rest) = w := by
  simp only [le4, List.cons_append, List.nil_append, word4]
  omega

theorem drop4_le4_append (w : Nat) (rest : List Nat) :
    (le4 w ++ rest).drop 4 = rest := rfl

theorem optW_le (flag : Bool) : optW flag ≤ 4 := by
  cases flag <;> simp [optW]

theorem rowWidth_eq (fl : Flags) :
    rowWidth fl = 4 + optW fl.attenuation + optW fl.scatter
      + optW fl.random + optW fl.normalization + optW fl.tof + 8 := by
  rcases fl with ⟨a, s, r, n, t⟩
  cases a <;> cases s <;> cases r <;> cases n <;> cases t <;> rfl

theorem readOpt_spec (flag : Bool) (bs : List Nat)
    (h4 : optW flag ≤ bs.length) (hb : ∀ b ∈ bs, b < 256) :
    write_opt (readOpt flag bs).1 = bs.take (optW flag) ∧
    (readOpt flag bs).2 = bs.drop (optW flag) := by
  cases flag
  · simp [readOpt, write_opt, optW]
  · simp only [optW, if_true] at h4
    obtain ⟨hle, hlt⟩ := word4_spec bs h4 hb
    refine ⟨?_, ?_⟩
    · simp only [readOpt, if_true, write_opt]
      rw [Nat.mod_eq_of_lt hlt, hle]
      simp [optW]
    · simp [readOpt, optW]

theorem readOpt_write_opt (flag : Bool) (o : Option Nat) (rest : List Nat)
    (h : optConf flag o = true) :
    readOpt flag (write_opt o ++ rest) = (o, rest) := by
  cases flag <;> cases o
  · simp [readOpt, write_opt]
  · simp [optConf] at h
  · simp [optConf] at h
  · rename_i w
    simp only [optConf, decide_eq_true_eq] at h
    simp only [write_opt, Nat.mod_eq_of_lt h, readOpt, if_true]
    rw [word4_le4_append w h rest, drop4_le4_append]

theorem write_row_some (tv : Int) (oa osc ora ono oto : Option Nat)
    (v1 v2 : Int) :
    write_row ⟨some tv, oa, osc, ora, ono, oto, some v1, some v2⟩ =
      (le4 (toWord32 tv) ++ write_opt oa ++ write_opt osc ++ write_opt ora
        ++ write_opt ono ++ write_opt oto ++ le4 (toWord32 v1)
        ++ le4 (toWord32 v2), none) := rfl

/-- Decoding one record from the head of a big-enough well-formed byte
stream and re-encoding it with write_row reproduces exactly the bytes that
were consumed, with no error, and leaves the remaining bytes. -/
theorem decodeRow_spec (fl : Flags) (bs : List Nat)
    (hlen : rowWidth fl ≤ bs.length) (hb : ∀ b ∈ bs, b < 256) :
    write_row (decodeRow fl bs).1 = (bs.take (rowWidth fl), none) ∧
    (decodeRow fl bs).2 = bs.drop (rowWidth fl) := by
  have hwid := rowWidth_eq fl
  have hbd : ∀ k, ∀ b ∈ bs.drop k, b < 256 := fun k b h =>
    hb b (List.mem_of_mem_drop h)
  have hlen4 : 4 ≤ bs.length := by omega
  obtain ⟨ht, htlt⟩ := word4_spec bs hlen4 hb
  have hla : optW fl.attenuation ≤ (bs.drop 4).length := by
    rw [List.length_drop]
    omega
  obtain ⟨ha, ha2⟩ := readOpt_spec fl.attenuation (bs.drop 4) hla (hbd 4)
  have hd2 : (readOpt fl.attenuation (bs.drop 4)).2
      = bs.drop (4 + optW fl.attenuation) := by
    rw [ha2, List.drop_drop]
  have hls : optW fl.scatter
      ≤ (bs.drop (4 + optW fl.attenuation)).length := by
    rw [List.length_drop]
    omega
  obtain ⟨hs, hs2⟩ := readOpt_spec fl.scatter _ hls (hbd _)
  have hd3 : (readOpt fl.scatter (bs.drop (4 + optW fl.attenuation))).2
      = bs.drop (4 + optW fl.attenuation + optW fl.scatter) := by
    rw [hs2, List.drop_drop]
  have hlr : optW fl.random
      ≤ (bs.drop (4 + optW fl.attenuation + optW fl.scatter)).length := by
    rw [List.length_drop]
    omega
  obtain ⟨hr, hr2⟩ := readOpt_spec fl.random _ hlr (hbd _)
  have hd4 : (readOpt fl.random
        (bs.drop (4 + optW fl.attenuation + optW fl.scatter))).2
      = bs.drop (4 + optW fl.attenuation + optW fl.scatter
          + optW fl.random) := by
    rw [hr2, List.drop_drop]
  have hln : optW fl.normalization
      ≤ (bs.drop (4 + optW fl.attenuation + optW fl.scatter
          + optW fl.random)).length := by
    rw [List.length_drop]
    omega
  obtain ⟨hn, hn2⟩ := readOpt_spec fl.normalization _ hln (hbd _)
  have hd5 : (readOpt fl.normalization
        (bs.drop (4 + optW fl.attenuation + optW fl.scatter
          + optW fl.random))).2
      = bs.drop (4 + optW fl.attenuation + optW fl.scatter + optW fl.random
          + optW fl.normalization) := by
    rw [hn2, List.drop_drop]
  have hlt' : optW fl.tof
      ≤ (bs.drop (4 + optW fl.attenuation + optW fl.scatter + optW fl.random
          + optW fl.normalization)).length := by
    rw [List.length_drop]
    omega
  obtain ⟨hto, hto2⟩ := readOpt_spec fl.tof _ hlt' (hbd _)
  have hd6 : (readOpt fl.tof
        (bs.drop (4 + optW fl.attenuation + optW fl.scatter + optW fl.random
          + optW fl.normalization))).2
      = bs.drop (4 + optW fl.attenuation + optW fl.scatter + optW fl.random
          + optW fl.normalization + optW fl.tof) := by
    rw [hto2, List.drop_drop]
  have hlc1 : 4 ≤ (bs.drop (4 + optW fl.attenuation + optW fl.scatter
      + optW fl.random + optW fl.normalization + optW fl.tof)).length := by
    rw [List.length_drop]
    omega
  obtain ⟨hc1, hc1lt⟩ := word4_spec _ hlc1 (hbd _)
  have hd7 : (bs.drop (4 + optW fl.attenuation + optW fl.scatter
        + optW fl.random + optW fl.normalization + optW fl.tof)).drop 4
      = bs.drop (4 + optW fl.attenuation + optW fl.scatter + optW fl.random
          + optW fl.normalization + optW fl.tof + 4) := by
    rw [List.drop_drop]
  have hlc2 : 4 ≤ (bs.drop (4 + optW fl.attenuation + optW fl.scatter
      + optW fl.random + optW fl.normalization + optW fl.tof + 4)).length := by
    rw [List.length_drop]
    omega
  obtain ⟨hc2, hc2lt⟩ := word4_spec _ hlc2 (hbd _)
  simp only [decodeRow]
  rw [hd2, hd3, hd4, hd5, hd6, hd7]
  rw [write_row_some]
  rw [toWord32_toSigned32 _ htlt, ht]
  rw [toWord32_toSigned32 _ hc1lt, hc1]
  rw [toWord32_toSigned32 _ hc2lt, hc2]
  rw [ha, hs, hr, hn, hto]
  constructor
  · simp only [Prod.mk.injEq, and_true]
    rw [← List.take_add, ← List.take_add, ← List.take_add, ← List.take_add,
      ← List.take_add, ← List.take_add, ← List.take_add]
    congr 1
    omega
  · rw [List.drop_drop]
    congr 1
    omega

/-- Streaming a well-formed byte stream of exactly N records through the
identity row transform reproduces the input bytes. -/
theorem stream_identity (fl : Flags) (N : Nat) (bs : List Nat) (i : Nat)
    (hlen : bs.length = N * rowWidth fl) (hb : ∀ b ∈ bs, b < 256) :
    write_new_cdf_file (fun _ r => .keep r) (decodeRows fl N bs) i
      = .ok bs := by
  induction N generalizing bs i with
  | zero =>
    have hnil : bs = [] := List.eq_nil_of_length_eq_zero (by simpa using hlen)
    subst hnil
    simp [decodeRows, write_new_cdf_file]
  | succ k ih =>
    rw [Nat.succ_mul] at hlen
    have hge : rowWidth fl ≤ bs.length := by omega
    obtain ⟨hw, hd⟩ := decodeRow_spec fl bs hge hb
    simp only [decodeRows, write_new_cdf_file]
    rw [hw, hd]
    have hlen' : (bs.drop (rowWidth fl)).length = k * rowWidth fl := by
      rw [List.length_drop]
      omega
    have hb' : ∀ b ∈ bs.drop (rowWidth fl), b < 256 := fun b h =>
      hb b (List.mem_of_mem_drop h)
    rw [ih (bs.drop (rowWidth fl)) (i + 1) hlen' hb']
    show Except.ok (bs.take (rowWidth fl) ++ bs.drop (rowWidth fl)) = _
    rw [List.take_append_drop]

/-- Streaming rows through a transform that passes every row through
unchanged until call index nstop and raises the stop signal there writes
exactly the encodings of the rows before index nstop, in order. -/
theorem stream_stop_take (f : Nat → Row → RowUpd) (nstop : Nat)
    (rows : List Row) (i : Nat)
    (hkeep : ∀ j row, j < nstop → f j row = .keep row)
    (hstop : ∀ row, f nstop row = .stop)
    (hok : ∀ row ∈ rows, (write_row row).2 = none)
    (hi : i ≤ nstop) :
    write_new_cdf_file f rows i
      = .ok (((rows.take (nstop - i)).map
          fun row => (write_row row).1).flatten) := by
  induction rows generalizing i with
  | nil => simp [write_new_cdf_file]
  | cons row rest ih =>
    by_cases hlt : i < nstop
    · simp only [write_new_cdf_file]
      rw [hkeep i row hlt]
      dsimp only
      have hrow : write_row row = ((write_row row).1, none) := by
        rw [← hok row (List.mem_cons_self row rest)]
      rw [hrow]
      have hok' : ∀ r ∈ rest, (write_row r).2 = none := fun r h =>
        hok r (List.mem_cons_of_mem row h)
      rw [ih (i + 1) hok' hlt]
      have hsub : nstop - i = nstop - (i + 1) + 1 := by omega
      rw [hsub, List.take_succ_cons]
      simp [Except.map]
    · have hie : i = nstop := by omega
      subst hie
      simp only [write_new_cdf_file]
      rw [hstop row]
      simp

/-- The length of the bytes one optional field contributes. -/
theorem write_opt_length (flag : Bool) (o : Option Nat)
    (h : optConf flag o = true) : (write_opt o).length = optW flag := by
  cases flag <;> cases o <;> simp_all [optConf, write_opt, optW, le4]

/-- Encoding a row that conforms to the flags succeeds, produces exactly
one record width of bytes, and decoding them under the same flags
reproduces the row. -/
theorem write_row_conforms (fl : Flags) (row : Row)
    (h : row.conforms fl = true) :
    (write_row row).2 = none ∧
    (write_row row).1.length = rowWidth fl ∧
    ∀ rest, decodeRow fl ((write_row row).1 ++ rest) = (row, rest) := by
  rcases row with ⟨t, a, s, r, n, tof, c1, c2⟩
  simp only [Row.conforms, Bool.and_eq_true] at h
  obtain ⟨⟨⟨⟨⟨⟨⟨hT, hA⟩, hS⟩, hR⟩, hN⟩, hTF⟩, hC1⟩, hC2⟩ := h
  rcases t with _ | tv
  · simp [intConf] at hT
  rcases c1 with _ | v1
  · simp [intConf] at hC1
  rcases c2 with _ | v2
  · simp [intConf] at hC2
  simp only [intConf, Bool.and_eq_true, decide_eq_true_eq] at hT hC1 hC2
  refine ⟨rfl, ?_, ?_⟩
  · rw [write_row_some]
    simp only [List.length_append]
    rw [write_opt_length fl.attenuation a hA,
      write_opt_length fl.scatter s hS, write_opt_length fl.random r hR,
      write_opt_length fl.normalization n hN, write_opt_length fl.tof tof hTF,
      rowWidth_eq fl]
    simp only [le4, List.length_cons, List.length_nil]
  · intro rest
    rw [write_row_some]
    simp only [decodeRow, List.append_assoc, List.cons_append]
    rw [word4_le4_append _ (toWord32_lt tv), drop4_le4_append,
      toSigned32_toWord32 tv hT.1 hT.2]
    rw [readOpt_write_opt fl.attenuation a _ hA]
    rw [readOpt_write_opt fl.scatter s _ hS]
    rw [readOpt_write_opt fl.random r _ hR]
    rw [readOpt_write_opt fl.normalization n _ hN]
    rw [readOpt_write_opt fl.tof tof _ hTF]
    rw [word4_le4_append _ (toWord32_lt v1), drop4_le4_append,
      toSigned32_toWord32 v1 hC1.1 hC1.2]
    rw [word4_le4_append _ (toWord32_lt v2), drop4_le4_append,
      toSigned32_toWord32 v2 hC2.1 hC2.2]

/-- C1: for every list-mode N-record datafile pair, the full update with
the identity header transform and the identity row transform succeeds,
writes an output binary file byte-identical to the input binary file, and
writes an output header equal to the input header except that every line
carrying the data-filename field is set to the output binary file base
name. -/
theorem c1_update_identity (cdh : Cdh) (cdfBytes : List Nat)
    (outName fname : Line) (N : Nat) (fl : Flags) (m : Int)
    (hlm : is_list_mode cdh = .ok true)
    (hml : max_nb_of_lines_per_event cdh = .ok m) (hm1 : m ≤ 1)
    (hfl : get_flags cdh = .ok fl)
    (hname : read_cdh_field cdh dataFilenameKey = .ok (some fname))
    (hlen : cdfBytes.length = N * rowWidth fl)
    (hb : ∀ b ∈ cdfBytes, b < 256) :
    update_castor_datafile cdh cdfBytes outName Except.ok (fun _ r => .keep r)
      = ⟨some (cdh.map fun line =>
            if replaceMatches dataFilenameKey line then
              dataFilenameKey ++ ':' :: ' ' :: outName
            else line),
          some cdfBytes, none⟩ := by
  have hw0 : 0 < rowWidth fl := by
    have := rowWidth_eq fl
    omega
  have hmod : cdfBytes.length % rowWidth fl = 0 := by
    rw [hlen]
    exact Nat.mul_mod_left N (rowWidth fl)
  have hdiv : cdfBytes.length / rowWidth fl = N := by
    rw [hlen]
    exact Nat.mul_div_cancel N hw0
  have hdd : get_dd_from_cdf_file fl cdfBytes
      = .ok (decodeRows fl N cdfBytes) := by
    unfold get_dd_from_cdf_file
    rw [hmod, hdiv]
    simp
  have hval : get_cdf_and_cdh_content cdh cdfBytes
      = .ok (fl, decodeRows fl N cdfBytes) := by
    unfold get_cdf_and_cdh_content
    rw [hlm, hml, hfl, hname]
    have hnot : ¬(m > 1) := by omega
    simp [hnot, hdd]
  unfold update_castor_datafile
  rw [hval]
  have hstream := stream_identity fl N cdfBytes 0 hlen hb
  dsimp only [write_new_cdh_file]
  rw [hstream]
  dsimp only [replace_cdh_field]

def wCdh : Cdh :=
  ["Data filename: test.Cdf".data, "Number of events: 2".data,
    "Data mode: list-mode".data, "Isotope: unknown".data]

def wBytes : List Nat :=
  [1, 0, 0, 0, 1, 0, 0, 0, 2, 0, 0, 0, 2, 0, 0, 0, 2, 0, 0, 0, 1, 0, 0, 0]

theorem c1_update_identity_witness :
    update_castor_datafile wCdh wBytes "output.Cdf".data Except.ok
      (fun _ r => .keep r)
      = ⟨some ["Data filename: output.Cdf".data, "Number of events: 2".data,
            "Data mode: list-mode".data, "Isotope: unknown".data],
          some wBytes, none⟩ := by
  have h := c1_update_identity wCdh wBytes "output.Cdf".data "test.Cdf".data
    2 noFlags 1 (by decide) (by decide) (by decide) (by decide) (by decide)
    (by decide) (by decide)
  exact h.trans (by decide)

/-- C2: streaming records through a row transform that passes every record
through unchanged until it raises the stop signal at record index n writes
exactly the encodings of input records 0 to n-1, unchanged and in order;
the record that triggers the stop and all later records are not written. -/
theorem c2_stream_stop (f : Nat → Row → RowUpd) (nstop : Nat)
    (rows : List Row)
    (hkeep : ∀ j row, j < nstop → f j row = .keep row)
    (hstop : ∀ row, f nstop row = .stop)
    (hok : ∀ row ∈ rows, (write_row row).2 = none) :
    write_new_cdf_file f rows 0
      = .ok (((rows.take nstop).map
          fun row => (write_row row).1).flatten) := by
  have h := stream_stop_take f nstop rows 0 hkeep hstop hok (Nat.zero_le _)
  simpa using h

def fStop1 (i : Nat) (row : Row) : RowUpd :=
  if i = 0 then .keep row else .stop

def wRow1 : Row := ⟨some 1, none, none, none, none, none, some 1, some 2⟩

def wRow2 : Row := ⟨some 2, none, none, none, none, none, some 2, some 1⟩

theorem c2_stream_stop_witness :
    write_new_cdf_file fStop1 [wRow1, wRow2] 0
      = .ok [1, 0, 0, 0, 1, 0, 0, 0, 2, 0, 0, 0] := by
  have h := c2_stream_stop fStop1 1 [wRow1, wRow2]
    (by
      intro j row hj
      have hj0 : j = 0 := by omega
      subst hj0
      rfl)
    (fun row => rfl)
    (by decide)
  exact h.trans (by decide)

def rowT0 : Row := ⟨some 0, none, none, none, none, none, some 0, some 0⟩

def flA : Flags := ⟨true, false, false, false, false⟩

/-- C3 counterexample: the record with only the mandatory fields, against
the attenuation-enabled schema, satisfies the claim hypothesis (the schema
contains every field the record defines), yet encoding produces twelve
bytes without error and decoding them at offset zero under that same
schema fails (buffer size is not a multiple of the sixteen-byte record
width), so the round trip does not yield the original record. -/
theorem c3_roundtrip_counterexample :
    schemaContains rowT0 (get_dtype flA) = true ∧
    write_row rowT0 = ([0, 0, 0, 0, 0, 0, 0, 0, 0, 0, 0, 0], none) ∧
    get_dd_from_cdf_file flA (write_row rowT0).1
      = .error .frombufferSize := by decide

/-- C3 (amended): for every record and schema such that the record defines
exactly the fields of the schema (the mandatory fields with in-range
values, and each optional correction field present exactly when its flag is
enabled), decoding the bytes produced by encoding the record, at offset
zero under the same schema, yields the record back. -/
theorem c3_roundtrip (fl : Flags) (row : Row) (h : row.conforms fl = true) :
    get_dd_from_cdf_file fl (write_row row).1 = .ok [row] := by
  obtain ⟨herr, hlen, hdec⟩ := write_row_conforms fl row h
  have hd := hdec []
  rw [List.append_nil] at hd
  have hw0 : 0 < rowWidth fl := by
    have := rowWidth_eq fl
    omega
  unfold get_dd_from_cdf_file
  rw [hlen, Nat.mod_self, Nat.div_self hw0]
  simp [decodeRows, hd]

def rowW : Row := ⟨some 5, some 1077936128, none, none, none, none,
  some 1, some 2⟩

theorem c3_roundtrip_witness :
    get_dd_from_cdf_file flA (write_row rowW).1 = .ok [rowW] :=
  c3_roundtrip flA rowW (by decide)

/-- C4: the i4 scalar type used for the timestamp and the crystal
identifiers is the numpy SIGNED little-endian 32-bit integer type, not the
unsigned one: the timestamp bytes 00 00 00 80 (the value 2 to the 31st)
decode to a negative value, contradicting the unsigned reading the claim
and the source documentation describe. -/
theorem c4_signed_timestamp :
    (decodeRow noFlags [0, 0, 0, 128, 0, 0, 0, 0, 0, 0, 0, 0]).1.t
      = some (-2147483648) ∧
    toSigned32 (2 ^ 31) < 0 := by decide

/-- C5 counterexample: the record with only the mandatory fields is
missing field a, which is present in the attenuation-enabled schema, yet
write_row does not fail: it silently produces the twelve bytes of the
fields the record does define. -/
theorem c5_missing_optional_counterexample :
    CField.a ∈ (get_dtype flA).map Prod.fst ∧
    rowT0.hasField CField.a = false ∧
    write_row rowT0
      = ([0, 0, 0, 0, 0, 0, 0, 0, 0, 0, 0, 0], none) := by decide

/-- C5 (amended): write_row takes no schema and never checks one; it
raises a KeyError exactly when the record is missing one of the mandatory
fields (timestamp or either crystal identifier); a record missing an
optional correction field present in the schema is encoded without error,
that field silently omitted from the output. -/
theorem c5_mandatory_keyerror (row : Row) :
    (write_row row).2 = some CdhErr.keyErr
      ↔ (row.t = none ∨ row.c1 = none ∨ row.c2 = none) := by
  rcases row with ⟨t, a, s, r, n, tof, c1, c2⟩
  rcases t with _ | tv <;> rcases c1 with _ | v1 <;> rcases c2 with _ | v2 <;>
    simp [write_row]

/-- C6: read_cdh_field on a header in which the target key matches zero
lines returns absent; with exactly one matching line it returns that line
value; with exactly two matching lines it always fails with the
duplicate-field error carrying the key and the match count, whatever the
two values are. -/
theorem c6_read_field_matches (cdh : Cdh) (field : Line) :
    (cdh.countP (fun l => (lineFieldValue field l).isSome) = 0 →
      read_cdh_field cdh field = .ok none) ∧
    (∀ v l, l ∈ cdh → lineFieldValue field l = some v →
      cdh.countP (fun l => (lineFieldValue field l).isSome) = 1 →
      read_cdh_field cdh field = .ok (some v)) ∧
    (cdh.countP (fun l => (lineFieldValue field l).isSome) = 2 →
      read_cdh_field cdh field = .error (.duplicateField field 2)) := by
  have hc := length_filterMap_eq_countP (lineFieldValue field) cdh
  refine ⟨?_, ?_, ?_⟩
  · intro h0
    have hnil : cdh.filterMap (lineFieldValue field) = [] :=
      List.eq_nil_of_length_eq_zero (by omega)
    unfold read_cdh_field
    rw [hnil]
  · intro v l hl hv h1
    have hlen1 : (cdh.filterMap (lineFieldValue field)).length = 1 := by
      omega
    obtain ⟨u, hu⟩ := List.length_eq_one.mp hlen1
    have hvmem : v ∈ cdh.filterMap (lineFieldValue field) :=
      List.mem_filterMap.mpr ⟨l, hl, hv⟩
    rw [hu] at hvmem
    have hvu : v = u := by simpa using hvmem
    unfold read_cdh_field
    rw [hu, ← hvu]
  · intro h2
    have hlen2 : (cdh.filterMap (lineFieldValue field)).length = 2 := by
      omega
    rcases hF : cdh.filterMap (lineFieldValue field) with _ | ⟨x, tl⟩
    · rw [hF] at hlen2
      simp at hlen2
    rcases tl with _ | ⟨y, rest⟩
    · rw [hF] at hlen2
      simp at hlen2
    rw [hF] at hlen2
    simp only [List.length_cons] at hlen2
    have hrest : rest = [] :=
      List.eq_nil_of_length_eq_zero (by omega)
    subst hrest
    unfold read_cdh_field
    rw [hF]
    rfl

theorem c6_read_field_matches_witness :
    read_cdh_field ["A: 1".data, "A: 2".data] "A".data
      = .error (.duplicateField "A".data 2) :=
  (c6_read_field_matches ["A: 1".data, "A: 2".data] "A".data).2.2 (by decide)

/-- C7: check_flag returns false when the flag field is absent, false when
its value parses as the integer zero, true for any other integer value
(negative ones included), and fails with the malformed-value error when
the value does not parse as an integer. -/
theorem c7_check_flag_semantics (cdh : Cdh) (flag : Line) :
    (read_cdh_field cdh flag = .ok none → check_flag cdh flag = .ok false) ∧
    (∀ v, read_cdh_field cdh flag = .ok (some v) → pyInt v = none →
      check_flag cdh flag = .error (.malformedInt flag)) ∧
    (∀ v, read_cdh_field cdh flag = .ok (some v) → pyInt v = some 0 →
      check_flag cdh flag = .ok false) ∧
    (∀ v k, read_cdh_field cdh flag = .ok (some v) → pyInt v = some k →
      k ≠ 0 → check_flag cdh flag = .ok true) := by
  refine ⟨?_, ?_, ?_, ?_⟩
  · intro h
    unfold check_flag
    rw [h]
  · intro v h hp
    unfold check_flag
    rw [h]
    dsimp only
    rw [hp]
  · intro v h hp
    unfold check_flag
    rw [h]
    dsimp only
    rw [hp]
    rfl
  · intro v k h hp hk
    unfold check_flag
    rw [h]
    dsimp only
    rw [hp]
    simp [hk]

theorem c7_check_flag_semantics_witness :
    check_flag ["Random correction flag: -3".data] randomFlagKey
      = .ok true :=
  (c7_check_flag_semantics ["Random correction flag: -3".data]
    randomFlagKey).2.2.2 "-3".data (-3) (by decide) (by decide) (by decide)

def hdrNorm2 : Cdh :=
  ["Data mode: list-mode".data, "Normalization correction flag: 2".data]

/-- C8: on a header whose normalization flag is already present and
enabled with the value 2 (enabled by the library's own check_flag reading),
the header transform of add_normalization_factors does not fail: it
appends a second normalization-flag line, after which the flag field is a
duplicate and every later read of it fails. -/
theorem c8_enabled_flag_not_rejected :
    check_flag hdrNorm2 normalizationFlagKey = .ok true ∧
    nf_update_cdh hdrNorm2
      = .ok (hdrNorm2 ++ [normalizationFlagKey ++ ':' :: ' ' :: ['1']]) ∧
    read_cdh_field (hdrNorm2 ++ [normalizationFlagKey ++ ':' :: ' ' :: ['1']])
      normalizationFlagKey
      = .error (.duplicateField normalizationFlagKey 2) := by decide

/-- C9: when the input header has no line carrying the Data mode field,
the full update fails with the missing-mandatory-field error before
either output file is written, whatever the transforms are. -/
theorem c9_missing_data_mode (cdh : Cdh) (cdfBytes : List Nat)
    (outName : Line) (uc : Cdh → Except CdhErr Cdh)
    (ur : Nat → Row → RowUpd)
    (h : cdh.countP (fun l => (lineFieldValue dataModeKey l).isSome) = 0) :
    update_castor_datafile cdh cdfBytes outName uc ur
      = ⟨none, none, some .missingDataMode⟩ := by
  have hc := length_filterMap_eq_countP (lineFieldValue dataModeKey) cdh
  have hnil : cdh.filterMap (lineFieldValue dataModeKey) = [] :=
    List.eq_nil_of_length_eq_zero (by omega)
  have hread : read_cdh_field cdh dataModeKey = .ok none := by
    unfold read_cdh_field
    rw [hnil]
  have hlm : is_list_mode cdh = .error .missingDataMode := by
    unfold is_list_mode
    rw [hread]
  unfold update_castor_datafile get_cdf_and_cdh_content
  rw [hlm]

theorem c9_missing_data_mode_witness :
    update_castor_datafile ["Data filename: test.Cdf".data] []
      "out.Cdf".data Except.ok (fun _ r => .keep r)
      = ⟨none, none, some .missingDataMode⟩ :=
  c9_missing_data_mode ["Data filename: test.Cdf".data] [] "out.Cdf".data
    Except.ok (fun _ r => .keep r) (by decide)

/-- C10: a line whose text after the colon holds a first token and then,
after some whitespace, further non-whitespace text (a value with internal
whitespace) does not match the read pattern: read_cdh_field neither
returns the first token nor fails, and, when no other line matches the
key, it returns absent. -/
theorem c10_internal_whitespace (field s : Line) (pre post : List Line)
    (htok : (s.dropWhile isSpace).takeWhile (fun c => !(isSpace c)) ≠ [])
    (hrest : ((s.dropWhile isSpace).drop
        ((s.dropWhile isSpace).takeWhile (fun c => !(isSpace c))).length
      ).dropWhile isSpace ≠ [])
    (hother : ∀ l ∈ pre ++ post, lineFieldValue field l = none) :
    lineFieldValue field (field ++ ':' :: s) = none ∧
    read_cdh_field (pre ++ (field ++ ':' :: s) :: post) field
      = .ok none := by
  have hpre : field.isPrefixOf (field ++ ':' :: s) = true := by
    rw [List.isPrefixOf_iff_prefix]
    exact List.prefix_append field (':' :: s)
  have hre : (((s.dropWhile isSpace).drop
      ((s.dropWhile isSpace).takeWhile (fun c => !(isSpace c))).length
    ).dropWhile isSpace).isEmpty = false := by
    cases hcase : ((s.dropWhile isSpace).drop
        ((s.dropWhile isSpace).takeWhile (fun c => !(isSpace c))).length
      ).dropWhile isSpace
    · exact absurd hcase hrest
    · rfl
  have h1 : lineFieldValue field (field ++ ':' :: s) = none := by
    have hc : isSpace ':' = false := rfl
    unfold lineFieldValue
    simp only [hpre, if_true, List.drop_left, List.dropWhile_cons, hc,
      Bool.false_eq_true, if_false, hre, Bool.and_false]
  refine ⟨h1, ?_⟩
  have hp : pre.filterMap (lineFieldValue field) = [] :=
    List.filterMap_eq_nil_iff.mpr fun a ha =>
      hother a (List.mem_append_left post ha)
  have hq : post.filterMap (lineFieldValue field) = [] :=
    List.filterMap_eq_nil_iff.mpr fun a ha =>
      hother a (List.mem_append_right pre ha)
  have hall : (pre ++ (field ++ ':' :: s) :: post).filterMap
      (lineFieldValue field) = [] := by
    rw [List.filterMap_append, hp, List.filterMap_cons, h1, hq]
    rfl
  unfold read_cdh_field
  rw [hall]

theorem c10_internal_whitespace_witness :
    read_cdh_field ["Key: a b".data] "Key".data = .ok none :=
  (c10_internal_whitespace "Key".data " a b".data [] [] (by decide)
    (by decide) (by decide)).2

end CastorDatafile
